import Mathlib

/-!
Shallow embedding of the cross-venue arbitrage engine in
`live_shock_arb_sim.py`, with theorems settling the spec claims.

Decimal odds and stakes are embedded as rationals (the Python floats,
taken exactly); the randomness consumed by `MockBook.place` (latency and
rejection draws) is supplied as explicit oracle inputs; the cooperative
async scheduling of `try_trade` attempts is modelled as an interleaving
transition system whose atomic sections match the suspension points of
the code (an `await` is the only point where control can change hands).
-/

namespace LiveArb

/-! ### Configuration constants (CONFIG section of the script) -/

def TOTAL_OUTLAY : ℚ := 200

def MIN_ARBITRAGE_EDGE : ℚ := 5 / 1000

def MAX_CONCURRENT : ℕ := 2

/-! ### Data model -/

inductive Book
  | BookA
  | BookB
deriving DecidableEq, Repr

inductive Side
  | A
  | B
deriving DecidableEq, Repr

/-- `Ticket` dataclass (timestamp omitted: wall-clock time). -/
structure Ticket where
  book : Book
  event_id : String
  side : Side
  stake : ℚ
  decimal_odds : ℚ
  accepted : Bool
  note : String
deriving DecidableEq, Repr

/-- `Trade` dataclass (timestamp omitted: wall-clock time). -/
structure Trade where
  event_id : String
  A_book : Book
  B_book : Book
  stake_A : ℚ
  stake_B : ℚ
  oA : ℚ
  oB : ℚ
  profit_locked : ℚ
  roi : ℚ
deriving DecidableEq, Repr

/-- The bot's quote table `self.quotes`, keyed by (book, side).
Only the four keys ever read by `find_opportunity` are modelled; the
value kept per key is the quote's decimal odds (the only field read). -/
structure QuoteStore where
  qAA : Option ℚ
  qAB : Option ℚ
  qBA : Option ℚ
  qBB : Option ℚ
deriving DecidableEq, Repr

/-! ### Pure helpers (UTILS section) -/

def imp_prob_from_dec (o : ℚ) : ℚ := 1 / o

/-- `solve_equalized_stakes(oA, oB, total)`: returns `(SA, SB, locked)`. -/
def solve_equalized_stakes (oA oB total : ℚ) : ℚ × ℚ × ℚ :=
  let SA := total * oB / (oA + oB)
  let SB := total - SA
  let locked := SA * (oA - 1) - SB
  (SA, SB, locked)

/-! ### Opportunity detector (`ShockArbBot.find_opportunity`) -/

/-- One iteration of the `for (b1,s1),(b2,s2) in combos` loop: the
accumulator is the pair `(best, best_edge)`; a combo with a missing
quote is skipped (`continue`); otherwise the combo's edge replaces the
accumulator exactly when `edge > best_edge`. -/
def considerPair (acc : Option (Book × Book × ℚ × ℚ) × ℚ)
    (b1 b2 : Book) (q1 q2 : Option ℚ) : Option (Book × Book × ℚ × ℚ) × ℚ :=
  match q1, q2 with
  | some o1, some o2 =>
      let edge := 1 - (imp_prob_from_dec o1 + imp_prob_from_dec o2)
      if acc.2 < edge then (some (b1, b2, o1, o2), edge) else acc
  | _, _ => acc

/-- `find_opportunity`: folds the two combos
`((BookA,"A"),(BookB,"B"))` and `((BookB,"A"),(BookA,"B"))` in order,
then returns `best` iff `best` is set and `best_edge ≥ MIN_ARBITRAGE_EDGE`. -/
def find_opportunity (s : QuoteStore) : Option (Book × Book × ℚ × ℚ) :=
  let acc := considerPair
      (considerPair (none, 0) Book.BookA Book.BookB s.qAA s.qBB)
      Book.BookB Book.BookA s.qBA s.qAB
  match acc with
  | (some best, bestEdge) =>
      if MIN_ARBITRAGE_EDGE ≤ bestEdge then some best else none
  | (none, _) => none

/-- The edges of the combos whose two quotes are both present, in the
iteration order of `find_opportunity` (used to state claims about the
"best pairing" of a snapshot). -/
def pairingEdges (s : QuoteStore) : List ℚ :=
  (match s.qAA, s.qBB with
   | some o1, some o2 => [1 - (imp_prob_from_dec o1 + imp_prob_from_dec o2)]
   | _, _ => []) ++
  (match s.qBA, s.qAB with
   | some o1, some o2 => [1 - (imp_prob_from_dec o1 + imp_prob_from_dec o2)]
   | _, _ => [])

/-! ### Execution venue (`MockBook.place`)

The latency draw only suspends the caller (wall-clock time, no effect on
any value); the rejection draw `random.random() < BOOK_REJECT_PROB[...]`
is supplied as the oracle input `reject`. -/

def place (book : Book) (event_id : String) (side : Side)
    (stake decimal_odds : ℚ) (reject : Bool) : Ticket :=
  if reject then ⟨book, event_id, side, stake, decimal_odds, false, "rejected"⟩
  else ⟨book, event_id, side, stake, decimal_odds, true, ""⟩

/-! ### Order coordinator (`ShockArbBot.try_trade`) -/

/-- The scheduling-relevant events of one `try_trade` call: a venue
`place` coroutine starting, and it resolving (its `await` returning). -/
inductive Event
  | placeStart (b : Book)
  | placeResolve (b : Book)
deriving DecidableEq, Repr

/-- The bot state touched by `try_trade`: `self.open_trades` and
`self.trades`. -/
structure BotState where
  open_trades : ℕ
  trades : List Trade
deriving DecidableEq, Repr

/-- `try_trade(event_id)` over quote snapshot `s`, with the two venues'
rejection draws supplied as `rej1` (for the side-A leg's venue) and
`rej2` (for the side-B leg's venue). Returns the updated bot state and
the trace of placement events in the order the code produces them:
`t1 = await books[bA].place(...)` runs to completion before
`t2 = await books[bB].place(...)` starts. -/
def try_trade (st : BotState) (event_id : String) (s : QuoteStore)
    (rej1 rej2 : Bool) : BotState × List Event :=
  if MAX_CONCURRENT ≤ st.open_trades then (st, [])
  else
    match find_opportunity s with
    | none => (st, [])
    | some (bA, bB, oA, oB) =>
        let res := solve_equalized_stakes oA oB TOTAL_OUTLAY
        let SA := res.1
        let SB := res.2.1
        let locked := res.2.2
        let roi := locked / TOTAL_OUTLAY
        let opens1 := st.open_trades + 1
        let t1 := place bA event_id Side.A SA oA rej1
        let t2 := place bB event_id Side.B SB oB rej2
        let opens2 := opens1 - 1
        let evs := [Event.placeStart bA, Event.placeResolve bA,
                    Event.placeStart bB, Event.placeResolve bB]
        if t1.accepted && t2.accepted then
          (⟨opens2, st.trades ++ [⟨event_id, bA, bB, SA, SB, oA, oB, locked, roi⟩]⟩,
           evs)
        else (⟨opens2, st.trades⟩, evs)

/-! ### Session summary (`ShockArbBot.summary`) -/

/-- The two outcomes of `summary()`: the early-returned empty state, or
the statistics block (count, average ROI, total locked profit). -/
inductive Summary
  | empty
  | stats (n : ℕ) (avg_roi : ℚ) (total_locked : ℚ)
deriving DecidableEq, Repr

def summary (trades : List Trade) : Summary :=
  if trades = [] then Summary.empty
  else
    let n := trades.length
    Summary.stats n ((trades.map Trade.roi).sum / n)
      ((trades.map Trade.profit_locked).sum)

/-! ### Interleaving model of concurrent `try_trade` attempts

The engine loop awaits each `try_trade` call; concurrency across
attempts can only arise from the cooperative scheduler interleaving
tasks at `await` points. One attempt's observable phases: `idle`
(not yet past the guard), `inflight1` (first leg's `place` awaited,
counter incremented), `inflight2` (second leg's `place` awaited),
`done`. Lines 219–228 of the code contain no `await`, so the guard
check, opportunity lookup, stake solve and counter increment form one
atomic step; likewise the decrement and ledger append after the second
`await`. -/

inductive Phase
  | idle
  | inflight1
  | inflight2
  | done
deriving DecidableEq, Repr

/-- An attempt is in the spec's `LEGS_IN_FLIGHT` state while it awaits
either leg. -/
def legsInFlight (p : Phase) : Bool :=
  p = Phase.inflight1 || p = Phase.inflight2

/-- System state: the shared `open_trades` counter and the phase of each
attempt task. -/
def SysState := ℕ × List Phase

/-- One scheduler step. The quote snapshot an attempt sees is
existentially supplied per step (the feed task rewrites the store
between steps). -/
inductive SysStep : SysState → SysState → Prop
  | skipCap (o : ℕ) (l1 l2 : List Phase) (h : MAX_CONCURRENT ≤ o) :
      SysStep (o, l1 ++ Phase.idle :: l2) (o, l1 ++ Phase.done :: l2)
  | skipNoOpp (o : ℕ) (l1 l2 : List Phase) (s : QuoteStore)
      (h : find_opportunity s = none) :
      SysStep (o, l1 ++ Phase.idle :: l2) (o, l1 ++ Phase.done :: l2)
  | enter (o : ℕ) (l1 l2 : List Phase) (s : QuoteStore)
      (opp : Book × Book × ℚ × ℚ)
      (hcap : o < MAX_CONCURRENT) (hopp : find_opportunity s = some opp) :
      SysStep (o, l1 ++ Phase.idle :: l2) (o + 1, l1 ++ Phase.inflight1 :: l2)
  | resolve1 (o : ℕ) (l1 l2 : List Phase) :
      SysStep (o, l1 ++ Phase.inflight1 :: l2) (o, l1 ++ Phase.inflight2 :: l2)
  | resolve2 (o : ℕ) (l1 l2 : List Phase) :
      SysStep (o, l1 ++ Phase.inflight2 :: l2) (o - 1, l1 ++ Phase.done :: l2)

/-- Initial state of a run with `n` (eventual) attempt tasks: counter 0,
every attempt not yet started. -/
def sysInit (n : ℕ) : SysState := (0, List.replicate n Phase.idle)

/-- Reachability under the scheduler. -/
def SysReachable (n : ℕ) (st : SysState) : Prop :=
  Relation.ReflTransGen SysStep (sysInit n) st

/-! ### Auxiliary predicates and concrete inputs -/

/-- Every quote present in the snapshot has positive decimal odds (the
feed only ever publishes odds floored at 1.05). -/
def posStore (s : QuoteStore) : Prop :=
  (∀ o, s.qAA = some o → 0 < o) ∧ (∀ o, s.qAB = some o → 0 < o) ∧
  (∀ o, s.qBA = some o → 0 < o) ∧ (∀ o, s.qBB = some o → 0 < o)

/-- A concrete post-shock snapshot: BookA quotes side A at 2.0, BookB
(stale) quotes side B at 2.2; edge `1/22 ≈ 4.5%` clears the threshold. -/
def cexStore : QuoteStore := ⟨some 2, none, none, some (11 / 5)⟩

/-- The trade `try_trade` appends on `cexStore` when both legs accept:
stakes `2200/21` and `2000/21` at odds 2 and 2.2, locked profit
`200/21`, ROI `1/21`. -/
def cexTrade : Trade :=
  ⟨"EVT1", Book.BookA, Book.BookB, 2200 / 21, 2000 / 21, 2, 11 / 5,
   200 / 21, 1 / 21⟩

/-! ### Detector lemmas -/

/-- A loop iteration either leaves the accumulator unchanged or replaces
it with the combo just examined, whose edge then strictly dominates the
accumulated best edge. -/
theorem considerPair_eq_or (acc : Option (Book × Book × ℚ × ℚ) × ℚ)
    (b1 b2 : Book) (q1 q2 : Option ℚ) :
    considerPair acc b1 b2 q1 q2 = acc ∨
      ∃ o1 o2, q1 = some o1 ∧ q2 = some o2 ∧
        acc.2 < 1 - (imp_prob_from_dec o1 + imp_prob_from_dec o2) ∧
        considerPair acc b1 b2 q1 q2 =
          (some (b1, b2, o1, o2),
           1 - (imp_prob_from_dec o1 + imp_prob_from_dec o2)) := by
  rcases q1 with _ | o1
  · exact Or.inl rfl
  · rcases q2 with _ | o2
    · exact Or.inl rfl
    · by_cases h : acc.2 < 1 - (imp_prob_from_dec o1 + imp_prob_from_dec o2)
      · exact Or.inr ⟨o1, o2, rfl, rfl, h, by simp [considerPair, h]⟩
      · exact Or.inl (by simp [considerPair, h])

/-- A loop iteration on two present quotes whose edge strictly dominates
the accumulated best replaces the accumulator. -/
theorem considerPair_update (acc : Option (Book × Book × ℚ × ℚ) × ℚ)
    (b1 b2 : Book) (o1 o2 : ℚ)
    (h : acc.2 < 1 - (imp_prob_from_dec o1 + imp_prob_from_dec o2)) :
    considerPair acc b1 b2 (some o1) (some o2) =
      (some (b1, b2, o1, o2),
       1 - (imp_prob_from_dec o1 + imp_prob_from_dec o2)) := by
  simp [considerPair, h]

/-- A loop iteration on two present quotes whose edge does not strictly
dominate the accumulated best leaves the accumulator unchanged. -/
theorem considerPair_skip (acc : Option (Book × Book × ℚ × ℚ) × ℚ)
    (b1 b2 : Book) (o1 o2 : ℚ)
    (h : ¬ acc.2 < 1 - (imp_prob_from_dec o1 + imp_prob_from_dec o2)) :
    considerPair acc b1 b2 (some o1) (some o2) = acc := by
  simp [considerPair, h]

/-- Membership in `pairingEdges`, unfolded to the store's quotes. -/
theorem mem_pairingEdges (s : QuoteStore) (e : ℚ) :
    e ∈ pairingEdges s ↔
      (∃ o1 o2, s.qAA = some o1 ∧ s.qBB = some o2 ∧
        e = 1 - (imp_prob_from_dec o1 + imp_prob_from_dec o2)) ∨
      (∃ o1 o2, s.qBA = some o1 ∧ s.qAB = some o2 ∧
        e = 1 - (imp_prob_from_dec o1 + imp_prob_from_dec o2)) := by
  obtain ⟨qAA, qAB, qBA, qBB⟩ := s
  rcases qAA with _ | oAA <;> rcases qAB with _ | oAB <;>
    rcases qBA with _ | oBA <;> rcases qBB with _ | oBB <;>
    simp [pairingEdges]

/-- Soundness of the detector: a reported opportunity clears the edge
threshold, and its odds are the two quotes of one of the two legal
cross-venue pairings, in the orientation the loop assigns. -/
theorem find_opp_sound (s : QuoteStore) (b1 b2 : Book) (o1 o2 : ℚ)
    (h : find_opportunity s = some (b1, b2, o1, o2)) :
    MIN_ARBITRAGE_EDGE ≤ 1 - (imp_prob_from_dec o1 + imp_prob_from_dec o2) ∧
      ((b1 = Book.BookA ∧ b2 = Book.BookB ∧ s.qAA = some o1 ∧ s.qBB = some o2) ∨
       (b1 = Book.BookB ∧ b2 = Book.BookA ∧ s.qBA = some o1 ∧ s.qAB = some o2)) := by
  simp only [find_opportunity] at h
  rcases considerPair_eq_or
      (considerPair (none, 0) Book.BookA Book.BookB s.qAA s.qBB)
      Book.BookB Book.BookA s.qBA s.qAB with h2 | ⟨p1, p2, hq1, hq2, _, h2⟩
  · rw [h2] at h
    rcases considerPair_eq_or (none, 0) Book.BookA Book.BookB s.qAA s.qBB
        with h1 | ⟨a1, a2, ha1, ha2, _, h1⟩
    · rw [h1] at h
      simp at h
    · rw [h1] at h
      simp only at h
      split_ifs at h with hmin
      simp only [Option.some.injEq, Prod.mk.injEq] at h
      obtain ⟨hb1, hb2, ho1, ho2⟩ := h
      subst hb1; subst hb2; subst ho1; subst ho2
      exact ⟨hmin, Or.inl ⟨rfl, rfl, ha1, ha2⟩⟩
  · rw [h2] at h
    simp only at h
    split_ifs at h with hmin
    simp only [Option.some.injEq, Prod.mk.injEq] at h
    obtain ⟨hb1, hb2, ho1, ho2⟩ := h
    subst hb1; subst hb2; subst ho1; subst ho2
    exact ⟨hmin, Or.inr ⟨rfl, rfl, hq1, hq2⟩⟩

/-- Completeness of the detector: if some fully-quoted pairing's edge
clears the threshold, an opportunity is reported. -/
theorem find_opp_complete (s : QuoteStore) (e : ℚ)
    (he : e ∈ pairingEdges s) (hmin : MIN_ARBITRAGE_EDGE ≤ e) :
    (find_opportunity s).isSome = true := by
  have hpos : (0 : ℚ) < e := lt_of_lt_of_le (by norm_num [MIN_ARBITRAGE_EDGE]) hmin
  rw [mem_pairingEdges] at he
  simp only [find_opportunity]
  rcases he with ⟨a1, a2, ha1, ha2, hee⟩ | ⟨a1, a2, ha1, ha2, hee⟩
  · -- the first combo's edge clears the threshold
    have h0 : ((none, 0) : Option (Book × Book × ℚ × ℚ) × ℚ).2 <
        1 - (imp_prob_from_dec a1 + imp_prob_from_dec a2) := by
      rw [← hee]; exact hpos
    have h1 : considerPair (none, 0) Book.BookA Book.BookB s.qAA s.qBB =
        (some (Book.BookA, Book.BookB, a1, a2), e) := by
      rw [ha1, ha2, considerPair_update _ _ _ _ _ h0, hee]
    rw [h1]
    rcases considerPair_eq_or (some (Book.BookA, Book.BookB, a1, a2), e)
        Book.BookB Book.BookA s.qBA s.qAB with h2 | ⟨p1, p2, hq1, hq2, hlt, h2⟩
    · rw [h2]
      simp [hmin]
    · rw [h2]
      have : MIN_ARBITRAGE_EDGE ≤ 1 - (imp_prob_from_dec p1 + imp_prob_from_dec p2) :=
        le_of_lt (lt_of_le_of_lt hmin hlt)
      simp [this]
  · -- the second combo's edge clears the threshold
    have hup : ∀ acc : Option (Book × Book × ℚ × ℚ) × ℚ, acc.2 < e →
        considerPair acc Book.BookB Book.BookA s.qBA s.qAB =
          (some (Book.BookB, Book.BookA, a1, a2), e) := by
      intro acc hacc
      rw [ha1, ha2, considerPair_update _ _ _ _ _ (hee ▸ hacc), hee]
    rcases considerPair_eq_or (none, 0) Book.BookA Book.BookB s.qAA s.qBB
        with h1 | ⟨b1', b2', hb1', hb2', hlt1, h1⟩
    · rw [h1, hup (none, 0) hpos]
      simp [hmin]
    · rw [h1]
      by_cases hlt2 : 1 - (imp_prob_from_dec b1' + imp_prob_from_dec b2') < e
      · rw [hup _ hlt2]
        simp [hmin]
      · rw [ha1, ha2, considerPair_skip _ _ _ _ _ (by rw [← hee]; exact hlt2)]
        have hok : MIN_ARBITRAGE_EDGE ≤
            1 - (imp_prob_from_dec b1' + imp_prob_from_dec b2') :=
          le_trans hmin (not_lt.mp hlt2)
        simp [hok]

/-- If every fully-quoted pairing's edge is below the threshold, no
opportunity is reported. -/
theorem find_opp_none (s : QuoteStore)
    (h : ∀ e ∈ pairingEdges s, e < MIN_ARBITRAGE_EDGE) :
    find_opportunity s = none := by
  cases hfo : find_opportunity s with
  | none => rfl
  | some opp =>
      obtain ⟨b1, b2, o1, o2⟩ := opp
      obtain ⟨hedge, hpair⟩ := find_opp_sound s b1 b2 o1 o2 hfo
      have hmem : 1 - (imp_prob_from_dec o1 + imp_prob_from_dec o2) ∈ pairingEdges s := by
        rcases hpair with ⟨_, _, h1, h2⟩ | ⟨_, _, h1, h2⟩ <;>
          simp [pairingEdges, h1, h2]
      exact absurd hedge (not_le.mpr (h _ hmem))

/-! ### Claim theorems: detector -/

/-- C5, counterexample. The snapshot holding only the quotes
`(BookA, side A) ↦ 2` and `(BookB, side B) ↦ 2.01` has a cross-venue
opposite-side pair with implied-probability sum `1/2 + 100/201 < 1`
(edge `1/402 ≈ 0.0025`), yet the Detector reports no opportunity,
because the edge is below `MIN_ARBITRAGE_EDGE = 0.005`. -/
theorem C5_counterexample :
    imp_prob_from_dec 2 + imp_prob_from_dec (201 / 100) < 1 ∧
      find_opportunity ⟨some 2, none, none, some (201 / 100)⟩ = none := by
  constructor
  · norm_num [imp_prob_from_dec]
  · norm_num [find_opportunity, considerPair, imp_prob_from_dec, MIN_ARBITRAGE_EDGE]

/-- C5, amended. The Detector reports an opportunity exactly on the
snapshots where some complete cross-venue opposite-side pairing has edge
`1 − (1/o1 + 1/o2) ≥ MIN_ARBITRAGE_EDGE`; every reported opportunity's
quoted pair has edge at least `MIN_ARBITRAGE_EDGE` (hence in particular
implied-probability sum below 1, so pairs with sum ≥ 1 are never
reported). -/
theorem C5_detector_reports_amended (s : QuoteStore) :
    ((∃ e ∈ pairingEdges s, MIN_ARBITRAGE_EDGE ≤ e) →
      (find_opportunity s).isSome = true) ∧
    (∀ b1 b2 o1 o2, find_opportunity s = some (b1, b2, o1, o2) →
      MIN_ARBITRAGE_EDGE ≤ 1 - (imp_prob_from_dec o1 + imp_prob_from_dec o2) ∧
        imp_prob_from_dec o1 + imp_prob_from_dec o2 < 1 ∧
        1 - (imp_prob_from_dec o1 + imp_prob_from_dec o2) ∈ pairingEdges s) := by
  constructor
  · rintro ⟨e, he, hmin⟩
    exact find_opp_complete s e he hmin
  · intro b1 b2 o1 o2 h
    obtain ⟨hedge, hpair⟩ := find_opp_sound s b1 b2 o1 o2 h
    refine ⟨hedge, by
      have : (0 : ℚ) < MIN_ARBITRAGE_EDGE := by norm_num [MIN_ARBITRAGE_EDGE]
      linarith, ?_⟩
    rw [mem_pairingEdges]
    rcases hpair with ⟨_, _, h1, h2⟩ | ⟨_, _, h1, h2⟩
    · exact Or.inl ⟨o1, o2, h1, h2, rfl⟩
    · exact Or.inr ⟨o1, o2, h1, h2, rfl⟩

/-- C5 amended, witness: on the snapshot holding `(BookA, A) ↦ 2` and
`(BookB, B) ↦ 2.2` (edge `1/22 ≥ 0.005`) the Detector reports an
opportunity. -/
theorem C5_detector_reports_amended_witness :
    (find_opportunity ⟨some 2, none, none, some (11 / 5)⟩).isSome = true :=
  (C5_detector_reports_amended ⟨some 2, none, none, some (11 / 5)⟩).1
    ⟨1 / 22, by norm_num [pairingEdges, imp_prob_from_dec],
      by norm_num [MIN_ARBITRAGE_EDGE]⟩

/-- C6. The threshold comparison is inclusive: on any snapshot whose
best complete pairing edge equals `MIN_ARBITRAGE_EDGE` exactly, an
opportunity is reported; on any snapshot whose best complete pairing
edge is strictly below `MIN_ARBITRAGE_EDGE`, none is reported. -/
theorem C6_threshold_inclusive (s : QuoteStore) (e : ℚ)
    (hmem : e ∈ pairingEdges s) (hbest : ∀ e' ∈ pairingEdges s, e' ≤ e) :
    (e = MIN_ARBITRAGE_EDGE → (find_opportunity s).isSome = true) ∧
    (e < MIN_ARBITRAGE_EDGE → find_opportunity s = none) := by
  constructor
  · intro he
    exact find_opp_complete s e hmem (le_of_eq he.symm)
  · intro hlt
    exact find_opp_none s (fun e' h' => lt_of_le_of_lt (hbest e' h') hlt)

/-- C6, witness: a snapshot with a single complete pairing of edge
exactly `0.005` (odds 2 and 200/99) is accepted. -/
theorem C6_threshold_inclusive_witness :
    (find_opportunity ⟨some 2, none, none, some (200 / 99)⟩).isSome = true :=
  (C6_threshold_inclusive ⟨some 2, none, none, some (200 / 99)⟩
      MIN_ARBITRAGE_EDGE
      (by norm_num [pairingEdges, imp_prob_from_dec, MIN_ARBITRAGE_EDGE])
      (by norm_num [pairingEdges, imp_prob_from_dec, MIN_ARBITRAGE_EDGE])).1 rfl

/-- C8. A pairing with a missing quote is skipped: the Detector's
answer is unchanged if the incomplete pairing's remaining quote is
dropped altogether; and when both pairings are incomplete the Detector
reports no opportunity (it does not fail and does not treat missing
pairings as zero-edge candidates). -/
theorem C8_missing_quotes (s : QuoteStore) :
    ((s.qAA = none ∨ s.qBB = none) →
      find_opportunity s = find_opportunity ⟨none, s.qAB, s.qBA, none⟩) ∧
    ((s.qBA = none ∨ s.qAB = none) →
      find_opportunity s = find_opportunity ⟨s.qAA, none, none, s.qBB⟩) ∧
    ((s.qAA = none ∨ s.qBB = none) → (s.qBA = none ∨ s.qAB = none) →
      find_opportunity s = none) := by
  have hnone : ∀ (acc : Option (Book × Book × ℚ × ℚ) × ℚ) (b1 b2 : Book)
      (q1 q2 : Option ℚ), q1 = none ∨ q2 = none →
      considerPair acc b1 b2 q1 q2 = acc := by
    rintro acc b1 b2 q1 q2 (h | h) <;> subst h
    · rfl
    · rcases q1 with _ | o1 <;> rfl
  obtain ⟨qAA, qAB, qBA, qBB⟩ := s
  refine ⟨?_, ?_, ?_⟩
  · intro h
    simp only [find_opportunity]
    rw [hnone _ _ _ _ _ h, hnone _ _ _ _ _ (Or.inl rfl)]
  · intro h
    simp only [find_opportunity]
    rw [hnone _ _ _ _ _ h, hnone _ _ _ _ _ (Or.inl rfl)]
  · intro h1 h2
    simp only [find_opportunity]
    rw [hnone _ _ _ _ _ h1, hnone _ _ _ _ _ h2]

/-- C8, witness: on the snapshot holding only `(BookA, A) ↦ 2` (its
pairing partner `(BookB, B)` missing, and the other pairing fully
missing), the Detector reports no opportunity. -/
theorem C8_missing_quotes_witness :
    find_opportunity ⟨some 2, none, none, none⟩ = none :=
  (C8_missing_quotes ⟨some 2, none, none, none⟩).2.2
    (Or.inr rfl) (Or.inl rfl)

/-! ### Claim theorems: stake solver -/

/-- C4. For decimal odds `o1, o2 > 1` and total outlay `T > 0`,
`solve_equalized_stakes` returns `s1 = T × o2 / (o1 + o2)` and
`s2 = T − s1`, with `s1 + s2 = T` and `s1 × o1 = s2 × o2` exactly (the
embedding computes in exact rational arithmetic). -/
theorem C4_solver_equalizes (o1 o2 T : ℚ)
    (h1 : 1 < o1) (h2 : 1 < o2) (hT : 0 < T) :
    (solve_equalized_stakes o1 o2 T).1 = T * o2 / (o1 + o2) ∧
    (solve_equalized_stakes o1 o2 T).2.1 = T - T * o2 / (o1 + o2) ∧
    (solve_equalized_stakes o1 o2 T).1 + (solve_equalized_stakes o1 o2 T).2.1 = T ∧
    (solve_equalized_stakes o1 o2 T).1 * o1 =
      (solve_equalized_stakes o1 o2 T).2.1 * o2 := by
  have hsum : o1 + o2 ≠ 0 := by positivity
  refine ⟨rfl, rfl, by simp [solve_equalized_stakes], ?_⟩
  simp only [solve_equalized_stakes]
  field_simp
  ring

/-- C4, witness: at odds `2` and `2.2` with outlay `200`, the stakes
are `2200/21` and `2000/21`: they sum to `200` and both legs pay
`4400/21`. -/
theorem C4_solver_equalizes_witness :
    (solve_equalized_stakes 2 (11 / 5) 200).1 +
        (solve_equalized_stakes 2 (11 / 5) 200).2.1 = 200 ∧
    (solve_equalized_stakes 2 (11 / 5) 200).1 * 2 =
        (solve_equalized_stakes 2 (11 / 5) 200).2.1 * (11 / 5) :=
  ⟨(C4_solver_equalizes 2 (11 / 5) 200 (by norm_num) (by norm_num)
      (by norm_num)).2.2.1,
   (C4_solver_equalizes 2 (11 / 5) 200 (by norm_num) (by norm_num)
      (by norm_num)).2.2.2⟩

/-! ### Claim theorems: order coordinator -/

/-- C3. For every `try_trade` call in which at least one leg's
rejection draw fires (so that leg's ticket is not accepted), the trade
list is left unchanged and the open-trade counter returns to its
pre-attempt value. -/
theorem C3_slot_released (st : BotState) (eid : String) (s : QuoteStore)
    (rej1 rej2 : Bool) (h : rej1 = true ∨ rej2 = true) :
    (try_trade st eid s rej1 rej2).1.trades = st.trades ∧
    (try_trade st eid s rej1 rej2).1.open_trades = st.open_trades := by
  simp only [try_trade]
  split_ifs with hcap
  · exact ⟨rfl, rfl⟩
  · cases hfo : find_opportunity s with
    | none => exact ⟨rfl, rfl⟩
    | some opp =>
        obtain ⟨bA, bB, oA, oB⟩ := opp
        have hrej : ((place bA eid Side.A
              (solve_equalized_stakes oA oB TOTAL_OUTLAY).1 oA rej1).accepted &&
            (place bB eid Side.B
              (solve_equalized_stakes oA oB TOTAL_OUTLAY).2.1 oB rej2).accepted)
            = false := by
          rcases h with h | h <;> subst h <;> simp [place]
        simp [hrej]

/-- C3, witness: with an open opportunity (quotes 2 and 2.2), counter 0
and the first leg rejected, the ledger stays empty and the counter
returns to 0. -/
theorem C3_slot_released_witness :
    (try_trade ⟨0, []⟩ "EVT1" ⟨some 2, none, none, some (11 / 5)⟩
        true false).1.trades = ([] : List Trade) ∧
    (try_trade ⟨0, []⟩ "EVT1" ⟨some 2, none, none, some (11 / 5)⟩
        true false).1.open_trades = 0 :=
  C3_slot_released ⟨0, []⟩ "EVT1" ⟨some 2, none, none, some (11 / 5)⟩
    true false (Or.inl rfl)

/-! ### Coordinator and solver lemmas -/

/-- Evaluation of `try_trade` when the guard passes and the detector
reports `(bA, bB, oA, oB)`: the counter always returns to its entry
value, the four placement events happen in program order, and a trade is
appended exactly when neither rejection draw fires. -/
theorem try_trade_eq_of_some (st : BotState) (eid : String) (s : QuoteStore)
    (rej1 rej2 : Bool) (bA bB : Book) (oA oB : ℚ)
    (hcap : ¬ MAX_CONCURRENT ≤ st.open_trades)
    (hfo : find_opportunity s = some (bA, bB, oA, oB)) :
    try_trade st eid s rej1 rej2 =
      ((if rej1 = false ∧ rej2 = false then
          (⟨st.open_trades, st.trades ++
            [⟨eid, bA, bB, (solve_equalized_stakes oA oB TOTAL_OUTLAY).1,
              (solve_equalized_stakes oA oB TOTAL_OUTLAY).2.1, oA, oB,
              (solve_equalized_stakes oA oB TOTAL_OUTLAY).2.2,
              (solve_equalized_stakes oA oB TOTAL_OUTLAY).2.2 / TOTAL_OUTLAY⟩]⟩ :
            BotState)
        else ⟨st.open_trades, st.trades⟩),
       [Event.placeStart bA, Event.placeResolve bA,
        Event.placeStart bB, Event.placeResolve bB]) := by
  simp only [try_trade, hfo]
  rw [if_neg hcap]
  cases rej1 <;> cases rej2 <;> simp [place]

/-- The solver's stakes always sum to the total outlay. -/
theorem solve_sum (oA oB total : ℚ) :
    (solve_equalized_stakes oA oB total).1 +
      (solve_equalized_stakes oA oB total).2.1 = total := by
  simp only [solve_equalized_stakes]
  ring

/-- With positive odds, the solver equalizes the two legs' payouts. -/
theorem solve_equal_payout (oA oB total : ℚ) (hA : 0 < oA) (hB : 0 < oB) :
    (solve_equalized_stakes oA oB total).1 * oA =
      (solve_equalized_stakes oA oB total).2.1 * oB := by
  have hne : oA + oB ≠ 0 := ne_of_gt (add_pos hA hB)
  simp only [solve_equalized_stakes]
  field_simp
  ring

/-- With positive odds and an edge clearing the threshold, the solver's
locked profit is strictly positive. -/
theorem solve_locked_pos (oA oB : ℚ) (hA : 0 < oA) (hB : 0 < oB)
    (hedge : MIN_ARBITRAGE_EDGE ≤
      1 - (imp_prob_from_dec oA + imp_prob_from_dec oB)) :
    0 < (solve_equalized_stakes oA oB TOTAL_OUTLAY).2.2 := by
  have hedge' : (5 / 1000 : ℚ) ≤ 1 - (1 / oA + 1 / oB) := hedge
  have hAB : (0 : ℚ) < oA + oB := add_pos hA hB
  have hAne : oA ≠ 0 := ne_of_gt hA
  have hBne : oB ≠ 0 := ne_of_gt hB
  have hkey : oA * oB * (1 - (1 / oA + 1 / oB)) = oA * oB - oB - oA := by
    field_simp
    ring
  have h1 : oA * oB * (5 / 1000) ≤ oA * oB * (1 - (1 / oA + 1 / oB)) :=
    mul_le_mul_of_nonneg_left hedge' (le_of_lt (mul_pos hA hB))
  rw [hkey] at h1
  have hmulpos : (0 : ℚ) < oA * oB * (5 / 1000) := by positivity
  have hnum : (0 : ℚ) < oA * oB - oA - oB := by linarith
  have hlocked : (solve_equalized_stakes oA oB TOTAL_OUTLAY).2.2 =
      200 * (oA * oB - oA - oB) / (oA + oB) := by
    simp only [solve_equalized_stakes, TOTAL_OUTLAY]
    field_simp
    ring
  rw [hlocked]
  exact div_pos (by linarith) hAB

/-- The odds of a reported opportunity are quotes of the snapshot, so a
positive snapshot makes them positive. -/
theorem find_opp_pos (s : QuoteStore) (bA bB : Book) (oA oB : ℚ)
    (hpos : posStore s) (hfo : find_opportunity s = some (bA, bB, oA, oB)) :
    0 < oA ∧ 0 < oB := by
  obtain ⟨-, hpair⟩ := find_opp_sound s bA bB oA oB hfo
  obtain ⟨hAA, hAB, hBA, hBB⟩ := hpos
  rcases hpair with ⟨-, -, h1, h2⟩ | ⟨-, -, h1, h2⟩
  · exact ⟨hAA oA h1, hBB oB h2⟩
  · exact ⟨hBA oA h1, hAB oB h2⟩

/-- On the concrete snapshot `cexStore` the detector reports the
BookA-side-A / BookB-side-B pairing at odds 2 and 2.2. -/
theorem find_opp_cex :
    find_opportunity cexStore = some (Book.BookA, Book.BookB, 2, 11 / 5) := by
  norm_num [cexStore, find_opportunity, considerPair, imp_prob_from_dec,
    MIN_ARBITRAGE_EDGE]

/-- Evaluation of `try_trade` on the concrete snapshot `cexStore` with
both legs accepted: the trade `cexTrade` is appended, the counter
returns to 0, and the four placement events occur in program order. -/
theorem try_trade_cex_eval :
    try_trade ⟨0, []⟩ "EVT1" cexStore false false =
      ((⟨0, [cexTrade]⟩ : BotState),
       [Event.placeStart Book.BookA, Event.placeResolve Book.BookA,
        Event.placeStart Book.BookB, Event.placeResolve Book.BookB]) := by
  rw [try_trade_eq_of_some ⟨0, []⟩ "EVT1" cexStore false false
      Book.BookA Book.BookB 2 (11 / 5) (by norm_num [MAX_CONCURRENT])
      find_opp_cex]
  norm_num [cexTrade, solve_equalized_stakes, TOTAL_OUTLAY]

/-! ### Claim theorems: ledger invariants -/

/-- C7, counterexample. On snapshot `cexStore` with both legs accepted,
the appended trade (stakes `2200/21`, `2000/21` at odds 2, 2.2) violates
`stake_A × (odds_A − 1) = stake_B`: the left side is `2200/21`, the
right `2000/21` — the claimed identity would force zero locked profit,
while every executed trade has positive edge. -/
theorem C7_counterexample :
    (try_trade ⟨0, []⟩ "EVT1" cexStore false false).1.trades = [cexTrade] ∧
    ¬ cexTrade.stake_A * (cexTrade.oA - 1) = cexTrade.stake_B := by
  constructor
  · rw [try_trade_cex_eval]
  · norm_num [cexTrade]

/-- C7, amended. Over any positive snapshot, every trade appended by a
`try_trade` call satisfies `stake_A + stake_B = TOTAL_OUTLAY` (exactly,
in rational arithmetic) and the equal-payout identity
`stake_A × odds_A = stake_B × odds_B` (the solver's actual guarantee,
in place of the claimed `stake_A × (odds_A − 1) = stake_B`). -/
theorem C7_ledger_invariant_amended (st : BotState) (eid : String)
    (s : QuoteStore) (rej1 rej2 : Bool) (hpos : posStore s) (tr : Trade)
    (htr : tr ∈ (try_trade st eid s rej1 rej2).1.trades) :
    tr ∈ st.trades ∨
      (tr.stake_A + tr.stake_B = TOTAL_OUTLAY ∧
       tr.stake_A * tr.oA = tr.stake_B * tr.oB) := by
  by_cases hcap : MAX_CONCURRENT ≤ st.open_trades
  · left
    simpa [try_trade, hcap] using htr
  · cases hfo : find_opportunity s with
    | none =>
        left
        simpa [try_trade, hfo, hcap] using htr
    | some opp =>
        obtain ⟨bA, bB, oA, oB⟩ := opp
        obtain ⟨hoA, hoB⟩ := find_opp_pos s bA bB oA oB hpos hfo
        rw [try_trade_eq_of_some st eid s rej1 rej2 bA bB oA oB hcap hfo] at htr
        split_ifs at htr
        · simp only [List.mem_append, List.mem_singleton] at htr
          rcases htr with htr | htr
          · exact Or.inl htr
          · subst htr
            exact Or.inr ⟨solve_sum oA oB TOTAL_OUTLAY,
              solve_equal_payout oA oB TOTAL_OUTLAY hoA hoB⟩
        · exact Or.inl htr

/-- C7 amended, witness: on `cexStore` (a positive snapshot) with both
legs accepted, the appended trade `cexTrade` satisfies the amended
invariant: `2200/21 + 2000/21 = 200` and
`(2200/21) × 2 = (2000/21) × 2.2`. -/
theorem C7_ledger_invariant_amended_witness :
    cexTrade.stake_A + cexTrade.stake_B = TOTAL_OUTLAY ∧
    cexTrade.stake_A * cexTrade.oA = cexTrade.stake_B * cexTrade.oB := by
  have hpos : posStore cexStore := by
    refine ⟨?_, ?_, ?_, ?_⟩ <;> intro o ho <;>
      simp only [cexStore, Option.some.injEq, reduceCtorEq] at ho <;>
      first
        | exact absurd ho (by simp)
        | (subst ho; norm_num)
  have h := C7_ledger_invariant_amended ⟨0, []⟩ "EVT1" cexStore false false
    hpos cexTrade (by rw [try_trade_cex_eval]; simp)
  rcases h with h | h
  · exact absurd h (by simp)
  · exact h

/-- C10. Over any positive snapshot, every trade appended by a
`try_trade` call has strictly positive locked profit and
`roi = profit_locked / TOTAL_OUTLAY`. -/
theorem C10_locked_profit_positive (st : BotState) (eid : String)
    (s : QuoteStore) (rej1 rej2 : Bool) (hpos : posStore s) (tr : Trade)
    (htr : tr ∈ (try_trade st eid s rej1 rej2).1.trades) :
    tr ∈ st.trades ∨
      (0 < tr.profit_locked ∧ tr.roi = tr.profit_locked / TOTAL_OUTLAY) := by
  by_cases hcap : MAX_CONCURRENT ≤ st.open_trades
  · left
    simpa [try_trade, hcap] using htr
  · cases hfo : find_opportunity s with
    | none =>
        left
        simpa [try_trade, hfo, hcap] using htr
    | some opp =>
        obtain ⟨bA, bB, oA, oB⟩ := opp
        obtain ⟨hoA, hoB⟩ := find_opp_pos s bA bB oA oB hpos hfo
        obtain ⟨hedge, -⟩ := find_opp_sound s bA bB oA oB hfo
        rw [try_trade_eq_of_some st eid s rej1 rej2 bA bB oA oB hcap hfo] at htr
        split_ifs at htr
        · simp only [List.mem_append, List.mem_singleton] at htr
          rcases htr with htr | htr
          · exact Or.inl htr
          · subst htr
            exact Or.inr ⟨solve_locked_pos oA oB hoA hoB hedge, rfl⟩
        · exact Or.inl htr

/-- C10, witness: the trade appended on `cexStore` has locked profit
`200/21 > 0` and ROI `(200/21)/200`. -/
theorem C10_locked_profit_positive_witness :
    0 < cexTrade.profit_locked ∧
    cexTrade.roi = cexTrade.profit_locked / TOTAL_OUTLAY := by
  have hpos : posStore cexStore := by
    refine ⟨?_, ?_, ?_, ?_⟩ <;> intro o ho <;>
      simp only [cexStore, Option.some.injEq, reduceCtorEq] at ho <;>
      first
        | exact absurd ho (by simp)
        | (subst ho; norm_num)
  have h := C10_locked_profit_positive ⟨0, []⟩ "EVT1" cexStore false false
    hpos cexTrade (by rw [try_trade_cex_eval]; simp)
  rcases h with h | h
  · exact absurd h (by simp)
  · exact h

/-! ### Claim theorems: leg scheduling, concurrency cap, summary -/

/-- C1, evaluation at the failing input. On snapshot `cexStore` (an
open opportunity, counter 0, both legs accepted) the placement trace of
`try_trade` is strictly sequential: BookA's `place` starts and resolves
before BookB's `place` starts — the second leg's placement does NOT
begin before the first leg's placement resolves, because the code
awaits `books[bA].place(...)` to completion before calling
`books[bB].place(...)`. -/
theorem C1_legs_placed_sequentially :
    (try_trade ⟨0, []⟩ "EVT1" cexStore false false).2 =
      [Event.placeStart Book.BookA, Event.placeResolve Book.BookA,
       Event.placeStart Book.BookB, Event.placeResolve Book.BookB] ∧
    List.indexOf (Event.placeResolve Book.BookA)
        (try_trade ⟨0, []⟩ "EVT1" cexStore false false).2 <
      List.indexOf (Event.placeStart Book.BookB)
        (try_trade ⟨0, []⟩ "EVT1" cexStore false false).2 := by
  have h : (try_trade ⟨0, []⟩ "EVT1" cexStore false false).2 =
      [Event.placeStart Book.BookA, Event.placeResolve Book.BookA,
       Event.placeStart Book.BookB, Event.placeResolve Book.BookB] := by
    rw [try_trade_cex_eval]
  refine ⟨h, ?_⟩
  rw [h]
  decide

/-- Preservation of the coordinator invariant by one scheduler step:
the shared counter equals the number of attempts with legs in flight,
and stays within the cap. -/
theorem sysStep_inv (st st' : SysState) (h : SysStep st st')
    (inv : st.1 = st.2.countP legsInFlight ∧ st.1 ≤ MAX_CONCURRENT) :
    st'.1 = st'.2.countP legsInFlight ∧ st'.1 ≤ MAX_CONCURRENT := by
  obtain ⟨h1, h2⟩ := inv
  cases h with
  | skipCap o l1 l2 hcap =>
      simp only [List.countP_append, List.countP_cons, legsInFlight] at h1 ⊢
      constructor
      · simpa using h1
      · exact h2
  | skipNoOpp o l1 l2 s hs =>
      simp only [List.countP_append, List.countP_cons, legsInFlight] at h1 ⊢
      constructor
      · simpa using h1
      · exact h2
  | enter o l1 l2 s opp hcap hopp =>
      simp only [List.countP_append, List.countP_cons, legsInFlight] at h1 ⊢
      constructor
      · simp at h1 ⊢
        omega
      · omega
  | resolve1 o l1 l2 =>
      simp only [List.countP_append, List.countP_cons, legsInFlight] at h1 ⊢
      constructor
      · simp at h1 ⊢
        omega
      · exact h2
  | resolve2 o l1 l2 =>
      simp only [List.countP_append, List.countP_cons, legsInFlight] at h1 ⊢
      constructor
      · simp at h1 ⊢
        omega
      · omega

/-- The coordinator invariant holds in every reachable state. -/
theorem sysReachable_inv (n : ℕ) (st : SysState) (h : SysReachable n st) :
    st.1 = st.2.countP legsInFlight ∧ st.1 ≤ MAX_CONCURRENT := by
  induction h with
  | refl =>
      refine ⟨?_, by simp [sysInit, MAX_CONCURRENT]⟩
      simp only [sysInit]
      rw [eq_comm, List.countP_eq_zero]
      intro a ha
      rw [List.eq_of_mem_replicate ha]
      decide
  | tail hr hs ih => exact sysStep_inv _ _ hs ih

/-- C2. In every reachable state of the interleaved coordinator with
cap `MAX_CONCURRENT`, at most `MAX_CONCURRENT` trade attempts are
simultaneously in the legs-in-flight phases, and the open-trade counter
never exceeds the cap: an attempt reaching the guard at or above the
cap skips without entering flight. -/
theorem C2_concurrency_cap (n : ℕ) (st : SysState)
    (h : SysReachable n st) :
    st.2.countP legsInFlight ≤ MAX_CONCURRENT ∧
      st.1 ≤ MAX_CONCURRENT := by
  obtain ⟨h1, h2⟩ := sysReachable_inv n st h
  exact ⟨h1 ▸ h2, h2⟩

/-- C2, witness: the state reached from a one-attempt run after the
attempt passes the guard on snapshot `cexStore` and enters flight has
one leg-in-flight attempt and counter 1, both within the cap of 2. -/
theorem C2_concurrency_cap_witness :
    ((1, [Phase.inflight1]) : SysState).2.countP legsInFlight ≤
        MAX_CONCURRENT ∧
      ((1, [Phase.inflight1]) : SysState).1 ≤ MAX_CONCURRENT :=
  C2_concurrency_cap 1 (1, [Phase.inflight1])
    (Relation.ReflTransGen.single
      (SysStep.enter 0 [] [] cexStore (Book.BookA, Book.BookB, 2, 11 / 5)
        (by norm_num [MAX_CONCURRENT]) find_opp_cex))

/-- C9. On an empty trade ledger, `summary` takes the early-return
empty branch: it reports the empty state, and the statistics branch
(the only place the average-ROI division occurs) is not evaluated. -/
theorem C9_empty_ledger_summary : summary [] = Summary.empty := by
  simp [summary]

end LiveArb
